import Mathlib

/-!
Shallow embedding of the calendar-assistant UI state logic
(`src/unnamed/part_002`, with `src/src/App.jsx` as a close variant).

JavaScript values are modelled as follows: strings are Lean `String`
(char-level work uses the underlying `List Char`); numbers that can be
`NaN` are `Option Nat` / `Option Int` with `none` for `NaN`; object
fields that may be `undefined` and are only consumed through `||`
fallbacks are modelled as `""` (both `undefined` and `""` are falsy);
React state setters are modelled as explicit state passing.
-/

namespace CalendarAgent

/-- A suggested/selected time slot `{ start, end }`; both fields hold ISO
date strings (`event.start.toISOString()` in the source). -/
structure Slot where
  start : String
  «end» : String
deriving DecidableEq, Repr

/-- A calendar-event view model.  String fields that a given event does not
carry in JS are `""` (falsy, matching the `||` fallbacks in the source). -/
structure Event where
  id : String := ""
  title : String := ""
  summary : String := ""
  start : String := ""
  «end» : String := ""
  calendarId : String := ""
  calendarName : String := ""
  backgroundColor : String := ""
  borderColor : String := ""
  textColor : String := ""
  display : String := ""
  existingEvent : Bool := false
  suggestedSlot : Bool := false
  classNames : List String := []
deriving DecidableEq, Repr

/-- The body of the `calendarEvents.forEach` loop in `getAllEvents`
(part_002 lines 925-943): recolor/retitle one suggested slot according to
whether its `(start, end)` pair is currently selected. -/
def recolorSuggested (selectedSlots : List Slot) (event : Event) : Event :=
  let isSelected := selectedSlots.any fun slot =>
    slot.start == event.start && slot.«end» == event.«end»
  { event with
    backgroundColor := if isSelected then "#4caf50" else "#8bc34a"
    borderColor := if isSelected then "#2e7d32" else "#689f38"
    textColor := "#ffffff"
    title := if isSelected then "Selected Time" else "Suggested Time"
    display := "block"
    suggestedSlot := true }

/-- Model of `getAllEvents` (part_002 lines 919-946): start from a copy of
`existingEvents` and push one recolored entry per suggested slot.  The
source guards the loop with `if (calendarEvents.length > 0)`, which is
behaviourally the same as mapping over the (possibly empty) list. -/
def getAllEvents (existingEvents calendarEvents : List Event)
    (selectedSlots : List Slot) : List Event :=
  existingEvents ++ calendarEvents.map (recolorSuggested selectedSlots)

/-- The functional updater passed to `setSelectedSlots` in
`handleEventClick` (part_002 lines 787-802): remove the `(start, end)` pair
of the clicked slot when present, append it when absent. -/
def toggleSlot (eventData : Slot) (prev : List Slot) : List Slot :=
  let isAlreadySelected := prev.any fun slot =>
    slot.start == eventData.start && slot.«end» == eventData.«end»
  if isAlreadySelected then
    prev.filter fun slot =>
      !(slot.start == eventData.start && slot.«end» == eventData.«end»)
  else
    prev ++ [eventData]

/-- Effect of `handleEventClick` on the `selectedSlots` state (part_002
lines 777-827): only events flagged `extendedProps.suggestedSlot` toggle
the selection; for other events the handler merely shows an alert. -/
def handleEventClick (event : Event) (selectedSlots : List Slot) : List Slot :=
  if event.suggestedSlot then
    toggleSlot { start := event.start, «end» := event.«end» } selectedSlots
  else
    selectedSlots

/-- C1: `getAllEvents` returns a single combined list in which the entry
produced from the `i`-th suggested slot of `calendarEvents` carries
backgroundColor `#4caf50`, borderColor `#2e7d32` and title
`"Selected Time"` when its `(start, end)` pair occurs in `selectedSlots`,
and backgroundColor `#8bc34a`, borderColor `#689f38` and title
`"Suggested Time"` when it does not. -/
theorem getAllEvents_selection_recoloring
    (existingEvents calendarEvents : List Event) (selectedSlots : List Slot)
    (i : Nat) (hi : i < calendarEvents.length) :
    ∃ e e', calendarEvents[i]? = some e
      ∧ (getAllEvents existingEvents calendarEvents selectedSlots)[
          existingEvents.length + i]? = some e'
      ∧ ((∃ slot ∈ selectedSlots, slot.start = e.start ∧ slot.«end» = e.«end») →
          e'.backgroundColor = "#4caf50" ∧ e'.borderColor = "#2e7d32"
            ∧ e'.title = "Selected Time")
      ∧ ((¬ ∃ slot ∈ selectedSlots,
            slot.start = e.start ∧ slot.«end» = e.«end») →
          e'.backgroundColor = "#8bc34a" ∧ e'.borderColor = "#689f38"
            ∧ e'.title = "Suggested Time") := by
  have hlen : (getAllEvents existingEvents calendarEvents selectedSlots).length
      = existingEvents.length + calendarEvents.length := by
    simp [getAllEvents]
  have hj : existingEvents.length + i
      < (getAllEvents existingEvents calendarEvents selectedSlots).length := by
    rw [hlen]; omega
  have hget : (getAllEvents existingEvents calendarEvents selectedSlots)[
      existingEvents.length + i]?
      = some (recolorSuggested selectedSlots calendarEvents[i]) := by
    rw [List.getElem?_eq_getElem hj]
    simp [getAllEvents, List.getElem_append_right, List.getElem_map]
  refine ⟨calendarEvents[i], recolorSuggested selectedSlots calendarEvents[i],
    List.getElem?_eq_getElem hi, hget, ?_, ?_⟩ <;> intro h <;>
    [ (have hany : (selectedSlots.any fun slot =>
          slot.start == calendarEvents[i].start
            && slot.«end» == calendarEvents[i].«end») = true := by
        simpa [List.any_eq_true, Bool.and_eq_true, beq_iff_eq] using h);
      (have hany : (selectedSlots.any fun slot =>
          slot.start == calendarEvents[i].start
            && slot.«end» == calendarEvents[i].«end») = false := by
        simpa [List.any_eq_true, Bool.and_eq_true, beq_iff_eq,
          not_exists, not_and] using h)] <;>
    simp [recolorSuggested, hany]

/-- Witness for C1 at a concrete input: a suggested slot whose pair is
selected is returned with the selected colors and title. -/
theorem getAllEvents_selection_recoloring_witness :
    ∃ e' : Event,
      (getAllEvents [] [{ start := "s1", «end» := "e1" }]
          [⟨"s1", "e1"⟩])[(0 : Nat) + 0]? = some e'
      ∧ e'.backgroundColor = "#4caf50" ∧ e'.borderColor = "#2e7d32"
      ∧ e'.title = "Selected Time" := by
  obtain ⟨e, e', he, he', hsel, _⟩ :=
    getAllEvents_selection_recoloring [] [{ start := "s1", «end» := "e1" }]
      [⟨"s1", "e1"⟩] 0 (by decide)
  have hcond : ∃ slot ∈ [(⟨"s1", "e1"⟩ : Slot)],
      slot.start = e.start ∧ slot.«end» = e.«end» := by
    refine ⟨⟨"s1", "e1"⟩, List.mem_singleton.mpr rfl, ?_⟩
    have : e = { start := "s1", «end» := "e1" } := by
      have h := he
      simp only [List.getElem?_cons_zero, Option.some.injEq] at h
      exact h.symm
    simp [this]
  obtain ⟨h1, h2, h3⟩ := hsel hcond
  exact ⟨e', by simpa using he', h1, h2, h3⟩

/-- C7 (frame): `getAllEvents` neither modifies nor drops existing events:
the returned list starts with `existingEvents` unchanged, the remainder is
exactly the recolored image of `calendarEvents`, and the total length is
the sum of the two lengths. -/
theorem getAllEvents_preserves_existing
    (existingEvents calendarEvents : List Event) (selectedSlots : List Slot) :
    (getAllEvents existingEvents calendarEvents selectedSlots).length
      = existingEvents.length + calendarEvents.length
    ∧ (getAllEvents existingEvents calendarEvents selectedSlots).take
        existingEvents.length = existingEvents
    ∧ (getAllEvents existingEvents calendarEvents selectedSlots).drop
        existingEvents.length
      = calendarEvents.map (recolorSuggested selectedSlots) := by
  refine ⟨by simp [getAllEvents], ?_, ?_⟩ <;>
    simp [getAllEvents, List.take_left, List.drop_left]

theorem slot_beq_decomp (s d : Slot) :
    (s.start == d.start && s.«end» == d.«end») = (s == d) := by
  rw [Bool.eq_iff_iff]
  simp only [Bool.and_eq_true, beq_iff_eq]
  cases s; cases d; simp [Slot.mk.injEq]

theorem toggleSlot_eq (d : Slot) (prev : List Slot) :
    toggleSlot d prev
      = if d ∈ prev then prev.filter (fun s => !(s == d)) else prev ++ [d] := by
  simp only [toggleSlot, slot_beq_decomp]
  by_cases h : d ∈ prev <;>
    simp [h, List.any_eq_true, beq_iff_eq]

/-- C6 counterexample: two consecutive clicks on the same suggested slot do
not restore `selectedSlots` to its original value when the clicked pair is
present but not in last position: removal filters it out and the second
click re-appends it at the end, reordering the list. -/
theorem handleEventClick_double_click_not_involutive :
    handleEventClick { start := "s1", «end» := "e1", suggestedSlot := true }
        (handleEventClick { start := "s1", «end» := "e1", suggestedSlot := true }
          [⟨"s1", "e1"⟩, ⟨"s2", "e2"⟩])
      ≠ [⟨"s1", "e1"⟩, ⟨"s2", "e2"⟩] := by
  decide

/-- C6 (amended): clicking a suggested slot removes the slots matching its
`(start, end)` pair from `selectedSlots` when the pair is present and
appends the pair when it is absent, and clicking an event not marked as a
suggested slot leaves `selectedSlots` unchanged.  Two consecutive clicks on
the same suggested slot restore `selectedSlots` exactly when the pair was
absent, and restore it up to permutation (the pair moves to the end) when
the pair occurred exactly once. -/
theorem handleEventClick_toggle_spec (event : Event) (slots : List Slot) :
    (event.suggestedSlot = false → handleEventClick event slots = slots)
    ∧ (event.suggestedSlot = true →
        ((⟨event.start, event.«end»⟩ : Slot) ∈ slots →
          handleEventClick event slots
            = slots.filter fun s => !(s == (⟨event.start, event.«end»⟩ : Slot)))
        ∧ ((⟨event.start, event.«end»⟩ : Slot) ∉ slots →
          handleEventClick event slots
            = slots ++ [(⟨event.start, event.«end»⟩ : Slot)])
        ∧ ((⟨event.start, event.«end»⟩ : Slot) ∉ slots →
          handleEventClick event (handleEventClick event slots) = slots)
        ∧ (List.count (⟨event.start, event.«end»⟩ : Slot) slots ≤ 1 →
          (handleEventClick event (handleEventClick event slots)).Perm slots)) := by
  constructor
  · intro h
    simp [handleEventClick, h]
  · intro h
    have hclick : ∀ l, handleEventClick event l
        = toggleSlot ⟨event.start, event.«end»⟩ l := by
      intro l; simp [handleEventClick, h]
    set d : Slot := ⟨event.start, event.«end»⟩ with hd
    have hremove : d ∈ slots →
        handleEventClick event slots = slots.filter fun s => !(s == d) := by
      intro hmem
      rw [hclick, toggleSlot_eq, if_pos hmem]
    have happend : d ∉ slots →
        handleEventClick event slots = slots ++ [d] := by
      intro hmem
      rw [hclick, toggleSlot_eq, if_neg hmem]
    have habsent : d ∉ slots →
        handleEventClick event (handleEventClick event slots) = slots := by
      intro hmem
      have hfilter : slots.filter (fun s => !(s == d)) = slots := by
        apply List.filter_eq_self.mpr
        intro a ha
        simp only [Bool.not_eq_eq_eq_not, Bool.not_true, beq_eq_false_iff_ne]
        exact fun hcontra => hmem (hcontra ▸ ha)
      rw [hclick, hclick, toggleSlot_eq d slots, if_neg hmem, toggleSlot_eq,
        if_pos (List.mem_append_right slots (List.mem_singleton.mpr rfl)),
        List.filter_append, hfilter]
      simp
    refine ⟨hremove, happend, habsent, ?_⟩
    intro hcount
    by_cases hmem : d ∈ slots
    · have hcount1 : List.count d slots = 1 := by
        have := List.count_pos_iff.mpr hmem
        omega
      have hstep1 : handleEventClick event slots
          = slots.filter (fun s => !(s == d)) := by
        rw [hclick, toggleSlot_eq, if_pos hmem]
      have hnotmem : d ∉ slots.filter (fun s => !(s == d)) := by
        intro hin
        have := (List.mem_filter.mp hin).2
        simp at this
      have hstep2 : handleEventClick event (handleEventClick event slots)
          = slots.filter (fun s => !(s == d)) ++ [d] := by
        rw [hstep1, hclick, toggleSlot_eq, if_neg hnotmem]
      rw [hstep2]
      apply List.perm_iff_count.mpr
      intro a
      by_cases ha : a = d
      · subst ha
        rw [List.count_append, List.count_eq_zero.mpr hnotmem, hcount1]
        simp
      · have had : ¬d = a := fun hc => ha hc.symm
        rw [List.count_append, List.count_filter (by simpa using ha)]
        simp [List.count_singleton', ha, had]
    · rw [habsent hmem]

/-- Witness for the amended C6 theorem at a concrete input: clicking a
suggested slot that is not selected appends its pair at the end, and
clicking it again restores the original selection exactly. -/
theorem handleEventClick_toggle_spec_witness :
    handleEventClick { start := "s1", «end» := "e1", suggestedSlot := true }
        [⟨"s2", "e2"⟩]
      = [⟨"s2", "e2"⟩, ⟨"s1", "e1"⟩]
    ∧ handleEventClick { start := "s1", «end» := "e1", suggestedSlot := true }
        (handleEventClick { start := "s1", «end» := "e1", suggestedSlot := true }
          [⟨"s2", "e2"⟩])
      = [⟨"s2", "e2"⟩] :=
  ⟨((handleEventClick_toggle_spec
      { start := "s1", «end» := "e1", suggestedSlot := true }
      [⟨"s2", "e2"⟩]).2 rfl).2.1 (by decide),
   ((handleEventClick_toggle_spec
      { start := "s1", «end» := "e1", suggestedSlot := true }
      [⟨"s2", "e2"⟩]).2 rfl).2.2.1 (by decide)⟩

/-- A calendar descriptor (id, display name, color, primary flag). Only
`id` is inspected by the modelled functions. -/
structure Calendar where
  id : String
  summary : String := ""
  backgroundColor : String := ""
  primary : Bool := false
deriving DecidableEq, Repr

/-- A JavaScript `Date`, reduced to the three accessors `formatDate` uses:
`getFullYear()`, `getMonth()` (0-based) and `getDate()`. -/
structure JsDate where
  year : Nat
  month0 : Nat
  day : Nat
deriving DecidableEq, Repr

/-- Model of `formatDate` (part_002 lines 210-220): format a date as `YYYY-MM-DD`,
zero-padding month and day to two characters. -/
def formatDate (d : JsDate) : String :=
  let month := toString (d.month0 + 1)
  let day := toString d.day
  let year := toString d.year
  let month := if month.length < 2 then "0" ++ month else month
  let day := if day.length < 2 then "0" ++ day else day
  String.intercalate "-" [year, month, day]

/-- One entry of the `eventsCache` state: the processed event list plus an
expiry timestamp in milliseconds. -/
structure CacheEntry where
  data : List Event
  expiry : Int
deriving DecidableEq, Repr

/-- The slice of component state read and written by
`fetchExistingEvents`.  `error` is the message passed to `setError`
(`none` when it has not been set). -/
structure FetchState where
  fetchingEvents : Bool
  existingEvents : List Event
  eventsCache : List (String × CacheEntry)
  error : Option String
deriving DecidableEq, Repr

/-- The JSON body of a successful `/api/get-events` response. -/
structure HttpResponse where
  success : Bool
  message : String := ""
  events : List Event := []
deriving DecidableEq, Repr

/-- The environment of one `fetchExistingEvents` call: its argument, the
captured component state it closes over, the clock, and the network.
`attempts k` is the outcome of the `k`-th `axios.get` call (`none` models a
thrown network error).  `now` is `Date.now()` at the cache-expiry check and
`nowAtStore` is `Date.now()` when a fresh cache entry is stored. -/
structure FetchInput where
  forceRefresh : Bool
  dateStart : JsDate
  dateEnd : JsDate
  selectedCalendars : List Calendar
  now : Int
  nowAtStore : Int
  attempts : Nat → Option HttpResponse
  getCalendarColor : String → Bool → String

/-- Observable actions of one `fetchExistingEvents` call: how many HTTP
attempts were made, the backoff delays (ms) awaited between consecutive
attempts, and whether the call was answered from the cache. -/
structure FetchTrace where
  httpAttempts : Nat
  delays : List Nat
  servedFromCache : Bool
deriving DecidableEq, Repr

/-- JavaScript `a || b` for the string fields involved: both `undefined`
and `""` are falsy, and absent fields are modelled as `""`. -/
def jsOr (a b : String) : String :=
  if a == "" then b else a

/-- The per-event metadata map applied to fetched events (part_002 lines
381-389). -/
def addEventMetadata (getCalendarColor : String → Bool → String)
    (event : Event) : Event :=
  { event with
    title := jsOr event.title (jsOr event.summary "Untitled Event")
    existingEvent := true
    backgroundColor :=
      jsOr event.backgroundColor (getCalendarColor event.calendarId false)
    borderColor :=
      jsOr event.borderColor (getCalendarColor event.calendarId true)
    textColor := jsOr event.textColor "#ffffff"
    classNames := ["calendar-event"] }

/-- Reading `eventsCache[cacheKey]` from the cache object. -/
def cacheLookup (cache : List (String × CacheEntry)) (key : String) :
    Option CacheEntry :=
  (cache.find? fun kv => kv.1 == key).map Prod.snd

/-- The updater `prev => ({ ...prev, [cacheKey]: entry })`: bind `key` to
`entry`, replacing any previous binding. -/
def cacheInsert (cache : List (String × CacheEntry)) (key : String)
    (entry : CacheEntry) : List (String × CacheEntry) :=
  (cache.filter fun kv => !(kv.1 == key)) ++ [(key, entry)]

/-- The `while (retries < maxRetries)` retry loop (part_002 lines 318-336),
unrolled on a fuel argument (`fuel ≥ maxRetries - retries` makes the last
arm unreachable).  Returns the response obtained (or `none` when the
error of the final attempt is rethrown), the total number of attempts made,
and the list of backoff delays awaited, each `1000 * 2 ^ (currentRetry + 1)`
milliseconds. -/
def retryLoop (attempts : Nat → Option HttpResponse) (maxRetries : Nat) :
    Nat → Nat → Option HttpResponse × Nat × List Nat
  | 0, retries => (none, retries, [])
  | fuel + 1, retries =>
    if retries < maxRetries then
      match attempts retries with
      | some response => (some response, retries + 1, [])
      | none =>
        if retries == maxRetries - 1 then
          (none, retries + 1, [])
        else
          let rest := retryLoop attempts maxRetries fuel (retries + 1)
          (rest.1, rest.2.1, 1000 * 2 ^ (retries + 1) :: rest.2.2)
    else (none, retries, [])

/-- The retry loop as entered by `fetchExistingEvents`: `retries = 0`,
`maxRetries = 3`. -/
def retryFetch (attempts : Nat → Option HttpResponse) :
    Option HttpResponse × Nat × List Nat :=
  retryLoop attempts 3 3 0

/-- The HTTP branch of `fetchExistingEvents` (part_002 lines 318-411),
taken when the cache cannot answer: run the retry loop, then process the
response.  The development-only mock-events branch
(`process.env.NODE_ENV === "development"`, lines 343-376) is omitted: the
model is of production builds, where it is dead code. -/
def fetchHttpPath (inp : FetchInput) (st : FetchState) (cacheKey : String) :
    FetchState × FetchTrace :=
  let r := retryFetch inp.attempts
  match r.1 with
  | none =>
    ({ st with
        fetchingEvents := false
        error := some "Failed to load events. Please try again." },
     { httpAttempts := r.2.1, delays := r.2.2, servedFromCache := false })
  | some response =>
    if response.success then
      let events := response.events
      if events.length > 0 then
        let eventsWithMetadata := events.map (addEventMetadata inp.getCalendarColor)
        ({ st with
            eventsCache := cacheInsert st.eventsCache cacheKey
              { data := eventsWithMetadata,
                expiry := inp.nowAtStore + 5 * 60 * 1000 },
            existingEvents := eventsWithMetadata,
            fetchingEvents := false },
         { httpAttempts := r.2.1, delays := r.2.2, servedFromCache := false })
      else
        ({ st with existingEvents := [], fetchingEvents := false },
         { httpAttempts := r.2.1, delays := r.2.2, servedFromCache := false })
    else
      ({ st with fetchingEvents := false },
       { httpAttempts := r.2.1, delays := r.2.2, servedFromCache := false })

/-- Model of `fetchExistingEvents` (part_002 lines 291-412): bail out while a fetch
is in flight; otherwise build the cache key
`` `${startDate}_${endDate}_${calendarIds}` `` and serve the cached event
list when a fresh entry exists and no refresh is forced; otherwise fall
through to the HTTP branch. -/
def fetchExistingEvents (inp : FetchInput) (st : FetchState) :
    FetchState × FetchTrace :=
  if st.fetchingEvents then
    (st, { httpAttempts := 0, delays := [], servedFromCache := false })
  else
    let startDate := formatDate inp.dateStart
    let endDate := formatDate inp.dateEnd
    let calendarIds := String.intercalate ","
      (inp.selectedCalendars.map Calendar.id)
    let cacheKey := startDate ++ "_" ++ endDate ++ "_" ++ calendarIds
    match cacheLookup st.eventsCache cacheKey with
    | some entry =>
      if !inp.forceRefresh && decide (entry.expiry > inp.now) then
        ({ st with existingEvents := entry.data, fetchingEvents := false },
         { httpAttempts := 0, delays := [], servedFromCache := true })
      else fetchHttpPath inp st cacheKey
    | none => fetchHttpPath inp st cacheKey

/-- The cache key built by `fetchExistingEvents` for a given call
environment. -/
def fetchCacheKey (inp : FetchInput) : String :=
  formatDate inp.dateStart ++ "_" ++ formatDate inp.dateEnd ++ "_"
    ++ String.intercalate "," (inp.selectedCalendars.map Calendar.id)

theorem retryFetch_eq (a : Nat → Option HttpResponse) :
    retryFetch a =
      match a 0 with
      | some r => (some r, 1, [])
      | none =>
        match a 1 with
        | some r => (some r, 2, [2000])
        | none =>
          match a 2 with
          | some r => (some r, 3, [2000, 4000])
          | none => (none, 3, [2000, 4000]) := by
  cases h0 : a 0 <;> cases h1 : a 1 <;> cases h2 : a 2 <;>
    simp [retryFetch, retryLoop, h0, h1, h2]

theorem retryFetch_attempts_bounds (a : Nat → Option HttpResponse) :
    1 ≤ (retryFetch a).2.1 ∧ (retryFetch a).2.1 ≤ 3 := by
  rw [retryFetch_eq]
  cases a 0 <;> cases a 1 <;> cases a 2 <;> simp

theorem retryFetch_delays_cases (a : Nat → Option HttpResponse) :
    (retryFetch a).2.2 = [] ∨ (retryFetch a).2.2 = [2000]
      ∨ (retryFetch a).2.2 = [2000, 4000] := by
  rw [retryFetch_eq]
  cases a 0 <;> cases a 1 <;> cases a 2 <;> simp

theorem fetchHttpPath_trace (inp : FetchInput) (st : FetchState)
    (key : String) :
    (fetchHttpPath inp st key).2
      = { httpAttempts := (retryFetch inp.attempts).2.1,
          delays := (retryFetch inp.attempts).2.2,
          servedFromCache := false } := by
  unfold fetchHttpPath
  dsimp only
  cases hr : (retryFetch inp.attempts).1 with
  | none => rfl
  | some response =>
    by_cases hs : response.success <;>
      by_cases he : response.events.length > 0 <;>
      simp [hs, he]

theorem fetchExistingEvents_eq (inp : FetchInput) (st : FetchState) :
    fetchExistingEvents inp st =
      if st.fetchingEvents then
        (st, { httpAttempts := 0, delays := [], servedFromCache := false })
      else
        match cacheLookup st.eventsCache (fetchCacheKey inp) with
        | some entry =>
          if !inp.forceRefresh && decide (entry.expiry > inp.now) then
            ({ st with existingEvents := entry.data, fetchingEvents := false },
             { httpAttempts := 0, delays := [], servedFromCache := true })
          else fetchHttpPath inp st (fetchCacheKey inp)
        | none => fetchHttpPath inp st (fetchCacheKey inp) := by
  rfl

theorem fetchExistingEvents_split (inp : FetchInput) (st : FetchState)
    (hF : st.fetchingEvents = false) :
    (∃ entry, cacheLookup st.eventsCache (fetchCacheKey inp) = some entry
      ∧ (!inp.forceRefresh && decide (entry.expiry > inp.now)) = true
      ∧ fetchExistingEvents inp st
        = ({ st with existingEvents := entry.data, fetchingEvents := false },
           { httpAttempts := 0, delays := [], servedFromCache := true }))
    ∨ ((∀ entry, cacheLookup st.eventsCache (fetchCacheKey inp) = some entry →
          (!inp.forceRefresh && decide (entry.expiry > inp.now)) = false)
        ∧ fetchExistingEvents inp st
          = fetchHttpPath inp st (fetchCacheKey inp)) := by
  rw [fetchExistingEvents_eq]
  simp only [hF, if_false, Bool.false_eq_true]
  cases hc : cacheLookup st.eventsCache (fetchCacheKey inp) with
  | none =>
    refine Or.inr ⟨?_, rfl⟩
    intro entry he
    exact absurd he (by simp)
  | some entry =>
    dsimp only
    by_cases hcond : (!inp.forceRefresh && decide (entry.expiry > inp.now)) = true
    · exact Or.inl ⟨entry, rfl, hcond, by rw [if_pos hcond]⟩
    · refine Or.inr ⟨?_, by rw [if_neg hcond]⟩
      intro e he
      injection he with he
      subst he
      exact Bool.eq_false_iff.mpr hcond

/-- C2: every entry that `fetchExistingEvents` writes to the events cache
is keyed by the formatted start date, the formatted end date and the
comma-joined selected-calendar ids (concatenated with `_` separators), and
its value stores the fetched (metadata-enriched) event list together with
an expiry timestamp equal to the storage time plus 5 minutes. -/
theorem fetchExistingEvents_cache_write (inp : FetchInput) (st : FetchState) :
    (fetchExistingEvents inp st).1.eventsCache = st.eventsCache
    ∨ ∃ r : HttpResponse, (retryFetch inp.attempts).1 = some r
        ∧ r.success = true ∧ r.events ≠ []
        ∧ (fetchExistingEvents inp st).1.eventsCache
          = cacheInsert st.eventsCache
              (formatDate inp.dateStart ++ "_" ++ formatDate inp.dateEnd
                ++ "_" ++ String.intercalate ","
                  (inp.selectedCalendars.map Calendar.id))
              { data := r.events.map (addEventMetadata inp.getCalendarColor),
                expiry := inp.nowAtStore + 5 * 60 * 1000 } := by
  rw [fetchExistingEvents_eq]
  by_cases hF : st.fetchingEvents
  · simp [hF]
  · simp only [hF, if_false, Bool.false_eq_true]
    have hhttp :
        (fetchHttpPath inp st (fetchCacheKey inp)).1.eventsCache = st.eventsCache
        ∨ ∃ r : HttpResponse, (retryFetch inp.attempts).1 = some r
            ∧ r.success = true ∧ r.events ≠ []
            ∧ (fetchHttpPath inp st (fetchCacheKey inp)).1.eventsCache
              = cacheInsert st.eventsCache (fetchCacheKey inp)
                  { data := r.events.map (addEventMetadata inp.getCalendarColor),
                    expiry := inp.nowAtStore + 5 * 60 * 1000 } := by
      unfold fetchHttpPath
      dsimp only
      cases hr : (retryFetch inp.attempts).1 with
      | none => simp
      | some response =>
        by_cases hs : response.success
        · by_cases he : response.events.length > 0
          · refine Or.inr ⟨response, rfl, hs, ?_, ?_⟩
            · exact List.ne_nil_of_length_pos he
            · simp [hs, he]
          · simp [hs, he]
        · simp [hs]
    have hkey : fetchCacheKey inp
        = formatDate inp.dateStart ++ "_" ++ formatDate inp.dateEnd ++ "_"
          ++ String.intercalate "," (inp.selectedCalendars.map Calendar.id) := rfl
    cases hc : cacheLookup st.eventsCache (fetchCacheKey inp) with
    | none => rw [← hkey]; exact hhttp
    | some entry =>
      by_cases hcond : (!inp.forceRefresh && decide (entry.expiry > inp.now)) = true
      · simp [hcond]
      · simp only [hcond, if_false, Bool.false_eq_true]
        rw [← hkey]; exact hhttp

/-- C3: when no fetch is in flight and `forceRefresh` is false,
`fetchExistingEvents` sets `existingEvents` from the cached list and makes
no HTTP attempt exactly when a cache entry for the current key exists whose
expiry is strictly greater than the current time; with a missing or expired
entry it performs the HTTP fetch (at least one attempt). -/
theorem fetchExistingEvents_cache_serve (inp : FetchInput) (st : FetchState)
    (hF : st.fetchingEvents = false) (hforce : inp.forceRefresh = false) :
    (∀ entry, cacheLookup st.eventsCache (fetchCacheKey inp) = some entry →
      inp.now < entry.expiry →
      fetchExistingEvents inp st
        = ({ st with existingEvents := entry.data, fetchingEvents := false },
           { httpAttempts := 0, delays := [], servedFromCache := true }))
    ∧ (cacheLookup st.eventsCache (fetchCacheKey inp) = none →
        1 ≤ (fetchExistingEvents inp st).2.httpAttempts)
    ∧ (∀ entry, cacheLookup st.eventsCache (fetchCacheKey inp) = some entry →
        entry.expiry ≤ inp.now →
        1 ≤ (fetchExistingEvents inp st).2.httpAttempts) := by
  refine ⟨?_, ?_, ?_⟩
  · intro entry hc hexp
    rcases fetchExistingEvents_split inp st hF with ⟨e, he, hcond, hfe⟩ | ⟨hall, hfe⟩
    · have he' := hc.symm.trans he
      injection he' with he'
      subst he'
      exact hfe
    · exfalso
      have := hall entry hc
      rw [hforce] at this
      simp only [Bool.not_false, Bool.true_and] at this
      rw [decide_eq_false_iff_not] at this
      exact this hexp
  · intro hc
    rcases fetchExistingEvents_split inp st hF with ⟨e, he, _, _⟩ | ⟨_, hfe⟩
    · rw [hc] at he
      exact absurd he (by simp)
    · rw [hfe, fetchHttpPath_trace]
      exact (retryFetch_attempts_bounds inp.attempts).1
  · intro entry hc hexp
    rcases fetchExistingEvents_split inp st hF with ⟨e, he, hcond, _⟩ | ⟨_, hfe⟩
    · exfalso
      have he' := hc.symm.trans he
      injection he' with he'
      subst he'
      rw [hforce] at hcond
      simp only [Bool.not_false, Bool.true_and] at hcond
      rw [decide_eq_true_iff] at hcond
      omega
    · rw [hfe, fetchHttpPath_trace]
      exact (retryFetch_attempts_bounds inp.attempts).1

/-- C4: `fetchExistingEvents` makes at most 3 HTTP attempts, each backoff
delay doubles the previous one, the error is propagated exactly when all
three attempts fail, and in that case `existingEvents` and the events
cache are unchanged and the error message is set. -/
theorem fetchExistingEvents_retries_with_backoff
    (inp : FetchInput) (st : FetchState) :
    (fetchExistingEvents inp st).2.httpAttempts ≤ 3
    ∧ List.Chain' (fun a b => b = 2 * a) (fetchExistingEvents inp st).2.delays
    ∧ ((retryFetch inp.attempts).1 = none ↔
        inp.attempts 0 = none ∧ inp.attempts 1 = none ∧ inp.attempts 2 = none)
    ∧ (st.fetchingEvents = false →
        (fetchExistingEvents inp st).2.servedFromCache = false →
        inp.attempts 0 = none → inp.attempts 1 = none →
        inp.attempts 2 = none →
        (fetchExistingEvents inp st).2.httpAttempts = 3
        ∧ (fetchExistingEvents inp st).2.delays = [2000, 4000]
        ∧ (fetchExistingEvents inp st).1.existingEvents = st.existingEvents
        ∧ (fetchExistingEvents inp st).1.eventsCache = st.eventsCache
        ∧ (fetchExistingEvents inp st).1.error
            = some "Failed to load events. Please try again.") := by
  have htr : (fetchExistingEvents inp st).2
        = { httpAttempts := 0, delays := [], servedFromCache := false }
      ∨ (fetchExistingEvents inp st).2
        = { httpAttempts := 0, delays := [], servedFromCache := true }
      ∨ (fetchExistingEvents inp st).2
        = { httpAttempts := (retryFetch inp.attempts).2.1,
            delays := (retryFetch inp.attempts).2.2,
            servedFromCache := false } := by
    rw [fetchExistingEvents_eq]
    by_cases hF : st.fetchingEvents
    · simp [hF]
    · simp only [hF, if_false, Bool.false_eq_true]
      cases hc : cacheLookup st.eventsCache (fetchCacheKey inp) with
      | none => simp [fetchHttpPath_trace]
      | some entry =>
        by_cases hcond :
            (!inp.forceRefresh && decide (entry.expiry > inp.now)) = true
        · simp [hcond]
        · simp [hcond, fetchHttpPath_trace]
  refine ⟨?_, ?_, ?_, ?_⟩
  · rcases htr with h | h | h <;> rw [h] <;>
      first
        | exact Nat.zero_le 3
        | exact (retryFetch_attempts_bounds inp.attempts).2
  · rcases htr with h | h | h <;> rw [h]
    · exact List.chain'_nil
    · exact List.chain'_nil
    · rcases retryFetch_delays_cases inp.attempts with hd | hd | hd <;>
        simp [hd]
  · rw [retryFetch_eq]
    cases h0 : inp.attempts 0 <;> cases h1 : inp.attempts 1 <;>
      cases h2 : inp.attempts 2 <;> simp
  · intro hF hserved h0 h1 h2
    have hr : retryFetch inp.attempts = (none, 3, [2000, 4000]) := by
      rw [retryFetch_eq, h0, h1, h2]
    have hhttp : fetchHttpPath inp st (fetchCacheKey inp)
        = ({ st with
              fetchingEvents := false
              error := some "Failed to load events. Please try again." },
           { httpAttempts := 3, delays := [2000, 4000],
             servedFromCache := false }) := by
      unfold fetchHttpPath
      dsimp only
      rw [hr]
    rcases fetchExistingEvents_split inp st hF with ⟨e, _, _, hfe⟩ | ⟨_, hfe⟩
    · rw [hfe] at hserved
      simp at hserved
    · rw [hfe, hhttp]
      simp

/-- A concrete call environment for the witnesses below: empty calendar
selection, a January 2024 date range, every HTTP attempt failing. -/
def sampleFetchInput : FetchInput where
  forceRefresh := false
  dateStart := ⟨2024, 0, 1⟩
  dateEnd := ⟨2024, 0, 2⟩
  selectedCalendars := []
  now := 0
  nowAtStore := 0
  attempts := fun _ => none
  getCalendarColor := fun _ _ => ""

/-- A concrete component state with an empty events cache. -/
def sampleEmptyState : FetchState where
  fetchingEvents := false
  existingEvents := []
  eventsCache := []
  error := none

/-- A concrete component state holding an unexpired cache entry for the
key `fetchCacheKey sampleFetchInput`. -/
def sampleCachedState : FetchState where
  fetchingEvents := false
  existingEvents := []
  eventsCache := [("2024-01-01_2024-01-02_", { data := [], expiry := 100 })]
  error := none

/-- Witness for C3 at a concrete input: an unexpired entry for the current
key is served without any HTTP attempt. -/
theorem fetchExistingEvents_cache_serve_witness :
    (fetchExistingEvents sampleFetchInput sampleCachedState).2.servedFromCache
      = true := by
  have h := (fetchExistingEvents_cache_serve sampleFetchInput
      sampleCachedState rfl rfl).1 { data := [], expiry := 100 }
      (by decide) (by decide)
  rw [h]

/-- Witness for C4 at a concrete input: with all three attempts failing the
call makes 3 attempts, waits 2000 then 4000 ms, and sets the error
message. -/
theorem fetchExistingEvents_retries_with_backoff_witness :
    (fetchExistingEvents sampleFetchInput sampleEmptyState).2.httpAttempts = 3
    ∧ (fetchExistingEvents sampleFetchInput sampleEmptyState).2.delays
        = [2000, 4000]
    ∧ (fetchExistingEvents sampleFetchInput sampleEmptyState).1.error
        = some "Failed to load events. Please try again." := by
  have h := (fetchExistingEvents_retries_with_backoff sampleFetchInput
      sampleEmptyState).2.2.2 rfl (by decide) rfl rfl rfl
  exact ⟨h.1, h.2.1, h.2.2.2.2⟩

/-- The slice of component state touched by `handleCalendarSelect`. -/
structure CalendarSelectionState where
  selectedCalendars : List Calendar
  eventsCache : List (String × CacheEntry)
deriving DecidableEq, Repr

/-- Model of `handleCalendarSelect` (part_002 lines 757-769): toggle the clicked
calendar in `selectedCalendars` by id and clear the events cache (the
updater calls `setEventsCache({})` in both branches). -/
def handleCalendarSelect (cal : Calendar) (st : CalendarSelectionState) :
    CalendarSelectionState :=
  let prev := st.selectedCalendars
  let isRemovingCalendar := prev.any fun selected => selected.id == cal.id
  let newCalendars :=
    if isRemovingCalendar then
      prev.filter fun selected => !(selected.id == cal.id)
    else prev ++ [cal]
  { selectedCalendars := newCalendars, eventsCache := [] }

/-- C8: `handleCalendarSelect` toggles membership of the given calendar by
id (filtering it out when an id match is present, appending it otherwise)
and empties the events cache in both cases, so a subsequent
`fetchExistingEvents` from the new state can never be served from a cache
entry recorded under the previous calendar selection. -/
theorem handleCalendarSelect_spec (cal : Calendar)
    (st : CalendarSelectionState) :
    ((∃ c ∈ st.selectedCalendars, c.id = cal.id) →
      (handleCalendarSelect cal st).selectedCalendars
        = st.selectedCalendars.filter fun c => !(c.id == cal.id))
    ∧ ((¬ ∃ c ∈ st.selectedCalendars, c.id = cal.id) →
      (handleCalendarSelect cal st).selectedCalendars
        = st.selectedCalendars ++ [cal])
    ∧ (handleCalendarSelect cal st).eventsCache = []
    ∧ (∀ (inp : FetchInput) (fst : FetchState),
        fst.fetchingEvents = false →
        fst.eventsCache = (handleCalendarSelect cal st).eventsCache →
        (fetchExistingEvents inp fst).2.servedFromCache = false) := by
  refine ⟨?_, ?_, rfl, ?_⟩
  · intro h
    have hany : (st.selectedCalendars.any fun selected =>
        selected.id == cal.id) = true := by
      simpa [List.any_eq_true, beq_iff_eq] using h
    simp [handleCalendarSelect, hany]
  · intro h
    have hany : (st.selectedCalendars.any fun selected =>
        selected.id == cal.id) = false := by
      simpa [List.any_eq_true, beq_iff_eq, not_exists] using h
    simp [handleCalendarSelect, hany]
  · intro inp fst hF hcache
    have hempty : fst.eventsCache = [] := hcache
    rcases fetchExistingEvents_split inp fst hF with ⟨e, he, _, _⟩ | ⟨_, hfe⟩
    · rw [hempty] at he
      exact absurd he (by simp [cacheLookup])
    · rw [hfe, fetchHttpPath_trace]

/-- Witness for C8 at a concrete input: selecting a calendar that is not in
the selection appends it, and the cache comes out empty. -/
theorem handleCalendarSelect_spec_witness :
    (handleCalendarSelect ⟨"work", "", "", false⟩
        ⟨[], [("k", { data := [], expiry := 0 })]⟩).selectedCalendars
      = [⟨"work", "", "", false⟩]
    ∧ (handleCalendarSelect ⟨"work", "", "", false⟩
        ⟨[], [("k", { data := [], expiry := 0 })]⟩).eventsCache = [] := by
  have h := handleCalendarSelect_spec ⟨"work", "", "", false⟩
    ⟨[], [("k", { data := [], expiry := 0 })]⟩
  exact ⟨h.2.1 (by simp), h.2.2.1⟩

/-- The JavaScript `String.prototype.split` with a one-character separator,
on the character-list representation of the string: `"".split(c)` is
`[""]`, and every separator occurrence opens a new (possibly empty)
segment. -/
def jsSplitOnChar (sep : Char) : List Char → List (List Char)
  | [] => [[]]
  | c :: cs =>
    let rest := jsSplitOnChar sep cs
    if c = sep then [] :: rest
    else
      match rest with
      | h :: t => (c :: h) :: t
      | [] => [[c]]

theorem jsSplitOnChar_ne_nil (sep : Char) (l : List Char) :
    jsSplitOnChar sep l ≠ [] := by
  cases l with
  | nil => simp [jsSplitOnChar]
  | cons c cs =>
    simp only [jsSplitOnChar]
    split
    · simp
    · split
      · simp
      · simp

theorem jsSplitOnChar_headD (sep : Char) (l : List Char) :
    (jsSplitOnChar sep l).headD [] = l.takeWhile (fun c => !(c == sep)) := by
  induction l with
  | nil => simp [jsSplitOnChar]
  | cons c cs ih =>
    simp only [jsSplitOnChar, List.takeWhile]
    by_cases h : c = sep
    · simp [h]
    · have hne := jsSplitOnChar_ne_nil sep cs
      cases hrest : jsSplitOnChar sep cs with
      | nil => exact absurd hrest hne
      | cons r rs =>
        rw [hrest] at ih
        simp only [List.headD] at ih
        have hb : (!(c == sep)) = true := by simp [h]
        simp [h, hrest, ih, hb]

/-- Model of `getEventSummaryFromText` (part_002 lines 771-775): take the first
`'.'`-separated segment of the text (`text.split('.')[0]`); return it when
it has at most 50 characters, otherwise its first 50 characters
(`substring(0, 50)`) followed by `"..."`. -/
def getEventSummaryFromText (text : String) : String :=
  let firstSentence := String.mk ((jsSplitOnChar '.' text.data).headD [])
  if firstSentence.length ≤ 50 then firstSentence
  else String.mk (firstSentence.data.take 50) ++ "..."

/-- C9: `getEventSummaryFromText` returns the first dot-separated
segment of the input (its maximal dot-free prefix) when that segment has at most 50
characters, and otherwise the first 50 characters of the segment followed by
`"..."`; consequently the result never exceeds 53 characters. -/
theorem getEventSummaryFromText_spec (text : String) :
    ((String.mk (text.data.takeWhile (fun c => !(c == '.')))).length ≤ 50 →
      getEventSummaryFromText text
        = String.mk (text.data.takeWhile (fun c => !(c == '.'))))
    ∧ (50 < (String.mk (text.data.takeWhile (fun c => !(c == '.')))).length →
      getEventSummaryFromText text
        = String.mk ((text.data.takeWhile (fun c => !(c == '.'))).take 50)
            ++ "...")
    ∧ (getEventSummaryFromText text).length ≤ 53 := by
  have hseg := jsSplitOnChar_headD '.' text.data
  simp only [getEventSummaryFromText, hseg]
  set seg : List Char := text.data.takeWhile (fun c => !(c == '.'))
  refine ⟨fun h => if_pos h, fun h => if_neg (by omega), ?_⟩
  by_cases h : (String.mk seg).length ≤ 50
  · rw [if_pos h]; omega
  · rw [if_neg h]
    have h1 : (String.mk (seg.take 50)).length = min 50 seg.length := by
      simp [String.length]
    have h2 : ∀ a b : String, (a ++ b).length = a.length + b.length := by
      simp
    have h3 : min 50 seg.length ≤ 50 := Nat.min_le_left _ _
    have h4 : ("..." : String).length = 3 := rfl
    rw [h2, h1, h4]
    omega

/-- Witness for C9 at a concrete input: a short dot-free text is returned
unchanged. -/
theorem getEventSummaryFromText_spec_witness :
    getEventSummaryFromText "Hello" = "Hello" :=
  ((getEventSummaryFromText_spec "Hello").1 (by decide)).trans (by decide)

/-- One chat bubble appended by `setChatMessages` (part_002). -/
structure ChatMessage where
  sender : String
  type : String := ""
  content : String
deriving DecidableEq, Repr

/-- The slice of component state read and written by
`handleScheduleSelected`. -/
structure ScheduleState where
  text : String
  showCalendar : Bool
  availableSlots : List Slot
  calendarEvents : List Event
  selectedSlots : List Slot
  chatMessages : List ChatMessage
  loading : Bool
deriving DecidableEq, Repr

/-- Outcome of one `axios.post` to `/api/schedule-selected-slot`:
`thrown msg` models a rejected promise (with
`error.response?.data?.message || error.message` equal to `msg`), `ok s`
a fulfilled response with `data.success = s`. -/
inductive ReqResult where
  | thrown (message : String)
  | ok (success : Bool)
deriving DecidableEq, Repr

/-- Models how `Promise.all` rejects with the first rejection among the
request outcomes. -/
def firstThrown (results : List ReqResult) : Option String :=
  results.findSome? fun r =>
    match r with
    | .thrown m => some m
    | .ok _ => none

/-- Model of `results.every(r => r.data.success)`. -/
def allSuccessful (results : List ReqResult) : Bool :=
  results.all fun r =>
    match r with
    | .ok s => s
    | .thrown _ => false

/-- Model of `handleScheduleSelected` (part_002 lines 842-889): no-op on an empty
selection; otherwise issue one schedule request per selected slot, all
carrying the same `eventDetails` (the returned list records the issued
requests), then clear the composer state when every request succeeds and
append an error chat message otherwise.  `respond k` is the outcome of the
`k`-th request; `eventDetails` is opaque to this handler. -/
def handleScheduleSelected {ε : Type} (st : ScheduleState) (eventDetails : ε)
    (respond : Nat → ReqResult) : ScheduleState × List (Slot × ε) :=
  if st.selectedSlots.length = 0 then (st, [])
  else
    let requests := st.selectedSlots.map fun slot => (slot, eventDetails)
    let results := (List.range st.selectedSlots.length).map respond
    match firstThrown results with
    | some m =>
      ({ st with
          chatMessages := st.chatMessages
            ++ [{ sender := "bot", type := "error", content := "Error: " ++ m }]
          loading := false }, requests)
    | none =>
      if allSuccessful results then
        ({ st with
            chatMessages := st.chatMessages
              ++ [{ sender := "bot", type := "success",
                    content := "All " ++ toString st.selectedSlots.length
                      ++ " events scheduled successfully!" }]
            text := ""
            showCalendar := false
            availableSlots := []
            calendarEvents := []
            selectedSlots := []
            loading := false }, requests)
      else
        ({ st with
            chatMessages := st.chatMessages
              ++ [{ sender := "bot", type := "error",
                    content := "Error: Some events could not be scheduled." }]
            loading := false }, requests)

theorem firstThrown_none_of_allSuccessful (results : List ReqResult)
    (h : allSuccessful results = true) : firstThrown results = none := by
  induction results with
  | nil => rfl
  | cons r rs ih =>
    simp only [allSuccessful, List.all_cons, Bool.and_eq_true] at h
    cases r with
    | thrown m => simp at h
    | ok s =>
      simp only [firstThrown, List.findSome?_cons]
      exact ih h.2

/-- C5: `handleScheduleSelected` is a no-op on an empty selection; on a
non-empty selection it issues exactly one request per selected slot, each
carrying the same `eventDetails`; it clears the input text, calendar view,
available slots, suggested events and selected slots if and only if every
request reports success; and on any thrown or unsuccessful request it
appends an error chat message and leaves the slot selection and calendar
view unchanged. -/
theorem handleScheduleSelected_spec {ε : Type} (st : ScheduleState)
    (eventDetails : ε) (respond : Nat → ReqResult) :
    (st.selectedSlots = [] →
      handleScheduleSelected st eventDetails respond = (st, []))
    ∧ (st.selectedSlots ≠ [] →
      (handleScheduleSelected st eventDetails respond).2
        = st.selectedSlots.map (fun slot => (slot, eventDetails))
      ∧ (((handleScheduleSelected st eventDetails respond).1.text = ""
          ∧ (handleScheduleSelected st eventDetails respond).1.showCalendar = false
          ∧ (handleScheduleSelected st eventDetails respond).1.availableSlots = []
          ∧ (handleScheduleSelected st eventDetails respond).1.calendarEvents = []
          ∧ (handleScheduleSelected st eventDetails respond).1.selectedSlots = [])
        ↔ allSuccessful ((List.range st.selectedSlots.length).map respond) = true)
      ∧ (allSuccessful ((List.range st.selectedSlots.length).map respond) = false →
          (∃ m, (handleScheduleSelected st eventDetails respond).1.chatMessages
            = st.chatMessages
              ++ [{ sender := "bot", type := "error", content := m }])
          ∧ (handleScheduleSelected st eventDetails respond).1.selectedSlots
              = st.selectedSlots
          ∧ (handleScheduleSelected st eventDetails respond).1.showCalendar
              = st.showCalendar
          ∧ (handleScheduleSelected st eventDetails respond).1.calendarEvents
              = st.calendarEvents)) := by
  constructor
  · intro h
    simp [handleScheduleSelected, h]
  · intro h
    have hlen : ¬st.selectedSlots.length = 0 := by
      simpa [List.length_eq_zero] using h
    cases hthrown : firstThrown ((List.range st.selectedSlots.length).map respond) with
    | some m =>
      have hfail : allSuccessful
          ((List.range st.selectedSlots.length).map respond) = false := by
        by_contra hcon
        rw [Bool.not_eq_false] at hcon
        rw [firstThrown_none_of_allSuccessful _ hcon] at hthrown
        exact Option.noConfusion hthrown
      refine ⟨?_, ?_, ?_⟩
      · simp [handleScheduleSelected, hlen, hthrown]
      · constructor
        · intro hcl
          exfalso
          have : (handleScheduleSelected st eventDetails respond).1.selectedSlots
              = st.selectedSlots := by
            simp [handleScheduleSelected, hlen, hthrown]
          rw [this] at hcl
          exact h hcl.2.2.2.2
        · intro hcon
          rw [hcon] at hfail
          exact Bool.noConfusion hfail
      · intro _
        exact ⟨⟨"Error: " ++ m, by simp [handleScheduleSelected, hlen, hthrown]⟩,
          by simp [handleScheduleSelected, hlen, hthrown],
          by simp [handleScheduleSelected, hlen, hthrown],
          by simp [handleScheduleSelected, hlen, hthrown]⟩
    | none =>
      cases hall : allSuccessful ((List.range st.selectedSlots.length).map respond) with
      | true =>
        refine ⟨?_, ?_, ?_⟩
        · simp [handleScheduleSelected, hlen, hthrown, hall]
        · constructor
          · intro _
            rfl
          · intro _
            simp [handleScheduleSelected, hlen, hthrown, hall]
        · intro hcon
          exact Bool.noConfusion hcon
      | false =>
        refine ⟨?_, ?_, ?_⟩
        · simp [handleScheduleSelected, hlen, hthrown, hall]
        · constructor
          · intro hcl
            exfalso
            have : (handleScheduleSelected st eventDetails respond).1.selectedSlots
                = st.selectedSlots := by
              simp [handleScheduleSelected, hlen, hthrown, hall]
            rw [this] at hcl
            exact h hcl.2.2.2.2
          · intro hcon
            exact Bool.noConfusion hcon
        · intro _
          exact ⟨⟨"Error: Some events could not be scheduled.",
              by simp [handleScheduleSelected, hlen, hthrown, hall]⟩,
            by simp [handleScheduleSelected, hlen, hthrown, hall],
            by simp [handleScheduleSelected, hlen, hthrown, hall],
            by simp [handleScheduleSelected, hlen, hthrown, hall]⟩

/-- Witness for C5 at a concrete input: an empty selection is a no-op and
issues no request. -/
theorem handleScheduleSelected_spec_witness :
    handleScheduleSelected
        (⟨"draft", true, [], [], [], [], false⟩ : ScheduleState) ()
        (fun _ => .ok true)
      = (⟨"draft", true, [], [], [], [], false⟩, []) :=
  (handleScheduleSelected_spec ⟨"draft", true, [], [], [], [], false⟩ ()
    (fun _ => .ok true)).1 rfl

/-- JavaScript `String.prototype.trim` on the character-list
representation. -/
def trim (l : List Char) : List Char :=
  ((l.dropWhile Char.isWhitespace).reverse.dropWhile Char.isWhitespace).reverse

/-- Split on maximal whitespace runs.  Together with the empty-group filter
in `jsSplitWhitespace` this models `str.split(/\s+/)` on the trimmed
strings that reach it in the source. -/
def splitOnWs : List Char → List (List Char)
  | [] => [[]]
  | c :: cs =>
    let rest := splitOnWs cs
    if c.isWhitespace then [] :: rest
    else
      match rest with
      | h :: t => (c :: h) :: t
      | [] => [[c]]

/-- Model of `timeStr.split(/\s+/)` as used in `parseTime`: its arguments are
already trimmed, so the regex split is the whitespace-run split with empty
groups removed (and `""` splits to `[""]`). -/
def jsSplitWhitespace (l : List Char) : List (List Char) :=
  if l.isEmpty then [[]]
  else (splitOnWs l).filter fun w => !w.isEmpty

/-- Numeric value of one digit character (hex letters included). -/
def hexDigitVal (c : Char) : Nat :=
  if c.isDigit then c.toNat - 48
  else if decide ('a' ≤ c ∧ c ≤ 'f') then c.toNat - 87
  else c.toNat - 55

/-- Value of a digit string in base `b` (digits beyond 9 read as hex
letters). -/
def baseDigitsVal (b : Nat) (l : List Char) : Nat :=
  l.foldl (fun acc c => acc * b + hexDigitVal c) 0

/-- Value of a base-10 digit string. -/
def decDigitsVal (l : List Char) : Nat :=
  baseDigitsVal 10 l

/-- Hexadecimal digit test. -/
def isHexDigit (c : Char) : Bool :=
  c.isDigit || decide ('a' ≤ c ∧ c ≤ 'f') || decide ('A' ≤ c ∧ c ≤ 'F')

/-- Binary digit test. -/
def isBinDigit (c : Char) : Bool :=
  c == '0' || c == '1'

/-- Octal digit test. -/
def isOctDigit (c : Char) : Bool :=
  decide ('0' ≤ c ∧ c ≤ '7')

/-- Optional exponent suffix of a JS decimal numeric literal: the empty
rest leaves the mantissa unchanged, `e`/`E` with an optionally signed
non-empty digit string scales by the corresponding power of ten, and any
other rest makes the whole string `NaN`. -/
def applyExponent (mant : ℚ) : List Char → Option ℚ
  | [] => some mant
  | c :: r =>
    if c = 'e' ∨ c = 'E' then
      let esign : Int :=
        match r with
        | '-' :: _ => -1
        | _ => 1
      let r1 :=
        match r with
        | '+' :: rr => rr
        | '-' :: rr => rr
        | _ => r
      if r1 ≠ [] ∧ r1.all Char.isDigit then
        some (mant * (10 : ℚ) ^ (esign * (decDigitsVal r1 : Int)))
      else none
    else none

/-- Signed decimal branch of JS `Number()`: an optional single sign, an
integer part and/or a `.`-separated fractional part (at least one of the
two non-empty), and an optional exponent; anything else is `NaN`. -/
def jsDecNumber (t : List Char) : Option ℚ :=
  let signFactor : ℚ :=
    match t with
    | '-' :: _ => -1
    | _ => 1
  let t1 :=
    match t with
    | '+' :: r => r
    | '-' :: r => r
    | _ => t
  let intPart := t1.takeWhile Char.isDigit
  let r1 := t1.drop intPart.length
  match r1 with
  | '.' :: r2 =>
    let fracPart := r2.takeWhile Char.isDigit
    let r3 := r2.drop fracPart.length
    if intPart = [] ∧ fracPart = [] then none
    else
      let mant : ℚ := (decDigitsVal intPart : ℚ)
        + (decDigitsVal fracPart : ℚ) / (10 : ℚ) ^ fracPart.length
      (applyExponent mant r3).map fun q => signFactor * q
  | _ =>
    if intPart = [] then none
    else (applyExponent (decDigitsVal intPart : ℚ) r1).map fun q =>
      signFactor * q

/-- JavaScript `Number(s)` with exact rational semantics: whitespace is
trimmed and the empty remainder is `0`; `0x`/`0b`/`0o` prefixes introduce
unsigned hex/binary/octal integers; otherwise the signed decimal grammar
of `jsDecNumber` applies (fractions and exponents included); every other
string is `NaN`, modelled as `none`.  Two deliberate boundaries of the
model: values are exact rationals rather than IEEE-754 doubles (every case
the C10 claim characterises involves integer values, where the two
agree), and the non-finite strings `Infinity`/`-Infinity` are mapped to
`none`. -/
def jsNumber (l : List Char) : Option ℚ :=
  let t := trim l
  match t with
  | [] => some 0
  | '0' :: c :: rest =>
    if c = 'x' ∨ c = 'X' then
      if rest ≠ [] ∧ rest.all isHexDigit then
        some ((baseDigitsVal 16 rest : Nat) : ℚ)
      else none
    else if c = 'b' ∨ c = 'B' then
      if rest ≠ [] ∧ rest.all isBinDigit then
        some ((baseDigitsVal 2 rest : Nat) : ℚ)
      else none
    else if c = 'o' ∨ c = 'O' then
      if rest ≠ [] ∧ rest.all isOctDigit then
        some ((baseDigitsVal 8 rest : Nat) : ℚ)
      else none
    else jsDecNumber t
  | _ => jsDecNumber t

/-- Model of `parseTime` inside `calculateDuration` (part_002 lines
1190-1197):
split off an optional AM/PM modifier, parse `hh:mm` (missing or
unparsable minutes become `0` via `minutes || 0`), apply the 12-hour
adjustments, and return total minutes; `none` models a `NaN` result. -/
def parseTime (timeStr : List Char) : Option ℚ :=
  let parts := jsSplitWhitespace timeStr
  let time := parts.headD []
  let modifier : Option (List Char) := parts[1]?
  let hm := jsSplitOnChar ':' time
  let hours0 := jsNumber (hm.headD [])
  let minutes : ℚ :=
    match hm[1]? with
    | none => 0
    | some m => (jsNumber m).getD 0
  match hours0 with
  | none => none
  | some h =>
    let h1 :=
      match modifier with
      | some m => if m.map Char.toUpper = "PM".data ∧ h < 12 then h + 12 else h
      | none => h
    let h2 :=
      match modifier with
      | some m => if m.map Char.toUpper = "AM".data ∧ h1 = 12 then 0 else h1
      | none => h1
    some (h2 * 60 + minutes)

/-- Rendering of a number in the produced template strings: integral
values print exactly as the program prints them; non-integral values can
only arise from inputs with fractional time components, where the
exact-rational model already stands in for IEEE-754 arithmetic (see
`jsNumber`), and are rendered as `num/den` in place of float printing. -/
def jsNumRepr (q : ℚ) : String :=
  if q.den = 1 then toString q.num
  else toString q.num ++ "/" ++ toString q.den

/-- The body of the `try` block of `calculateDuration` after both
endpoints are parsed: positive durations are formatted as whole hours
(`Math.floor(durationMinutes / 60)`, plural `s` exactly when more than
one) and remaining minutes (`durationMinutes % 60`, which for a positive
dividend equals `d - 60 * Math.floor(d / 60)`) when non-zero, or minutes
alone under an hour; otherwise the empty string.  A `none` endpoint models
`NaN` arithmetic, whose `durationMinutes > 0` test is false. -/
def durationFrom (s e : Option ℚ) : String :=
  match s, e with
  | some s, some e =>
    if s < e then
      let durationMinutes := e - s
      let hours : Int := Rat.floor (durationMinutes / 60)
      let mins : ℚ := durationMinutes - 60 * (hours : ℚ)
      if hours > 0 then
        toString hours ++ " hour" ++ (if hours > 1 then "s" else "")
          ++ (if mins > 0 then " " ++ jsNumRepr mins ++ " min" else "")
      else
        jsNumRepr mins ++ " min"
    else ""
  | _, _ => ""

/-- Model of `calculateDuration` (part_002 lines 1184-1215): empty result for a
missing `-` separator (which also covers the falsy `!timeRange` guard),
otherwise split once on `-`, trim both sides, parse and format.  The
JavaScript `try`/`catch` cannot fire on string inputs; the model is total
by construction. -/
def calculateDuration (timeRange : String) : String :=
  if !(timeRange.data.contains '-') then ""
  else
    match jsSplitOnChar '-' timeRange.data with
    | a :: b :: _ => durationFrom (parseTime (trim a)) (parseTime (trim b))
    | _ => ""

/-- C10: `calculateDuration` is total (a Lean function never throws) and
returns `""` whenever the input has no `-` separator or the parsed end
time is not strictly after the parsed start time (including `NaN` parses);
for a positive duration it returns whole hours with plural `s` exactly
when the hours exceed 1, followed by the remaining minutes when non-zero,
or the minutes alone when the duration is under an hour. -/
theorem calculateDuration_spec (timeRange : String) :
    (timeRange.data.contains '-' = false → calculateDuration timeRange = "")
    ∧ (∀ a b rest, timeRange.data.contains '-' = true →
        jsSplitOnChar '-' timeRange.data = a :: b :: rest →
        (∀ s e : ℚ, parseTime (trim a) = some s → parseTime (trim b) = some e →
            e ≤ s → calculateDuration timeRange = "")
        ∧ ((parseTime (trim a) = none ∨ parseTime (trim b) = none) →
            calculateDuration timeRange = "")
        ∧ (∀ s e : ℚ, parseTime (trim a) = some s → parseTime (trim b) = some e →
            s < e →
            calculateDuration timeRange =
              if Rat.floor ((e - s) / 60) > 0 then
                toString (Rat.floor ((e - s) / 60)) ++ " hour"
                  ++ (if Rat.floor ((e - s) / 60) > 1 then "s" else "")
                  ++ (if (e - s) - 60 * (Rat.floor ((e - s) / 60) : ℚ) > 0 then
                        " " ++ jsNumRepr
                            ((e - s) - 60 * (Rat.floor ((e - s) / 60) : ℚ))
                          ++ " min"
                      else "")
              else
                jsNumRepr ((e - s) - 60 * (Rat.floor ((e - s) / 60) : ℚ))
                  ++ " min")) := by
  constructor
  · intro h
    have h' : '-' ∉ timeRange.data := by simpa using h
    simp [calculateDuration, h']
  · intro a b rest hcont hsplit
    have hcont' : '-' ∈ timeRange.data := by simpa using hcont
    have hbase : calculateDuration timeRange
        = durationFrom (parseTime (trim a)) (parseTime (trim b)) := by
      simp [calculateDuration, hcont', hsplit]
    refine ⟨?_, ?_, ?_⟩
    · intro s e hs he hle
      rw [hbase, hs, he]
      simp [durationFrom, not_lt.mpr hle]
    · intro hnone
      rcases hnone with hn | hn <;> rw [hbase, hn] <;>
        [skip; cases parseTime (trim a)] <;> simp [durationFrom]
    · intro s e hs he hlt
      rw [hbase, hs, he]
      simp only [durationFrom, if_pos hlt]

set_option maxRecDepth 100000 in
/-- Witness for C10 at concrete inputs: a 90-minute 12-hour range formats
as one hour (no plural) plus the remaining minutes, and a range with a
fractional start hour (`Number("9.30") = 9.3`) still yields a formatted
positive duration rather than the empty string. -/
theorem calculateDuration_spec_witness :
    calculateDuration "9:00 AM - 10:30 AM" = "1 hour 30 min"
    ∧ calculateDuration "9.30 AM - 10 AM" = "42 min" := by
  constructor
  · have h := ((calculateDuration_spec "9:00 AM - 10:30 AM").2
        "9:00 AM ".data " 10:30 AM".data [] (by decide) (by decide)).2.2
        540 630 (by with_unfolding_all decide)
        (by with_unfolding_all decide) (by with_unfolding_all decide)
    exact h.trans (by with_unfolding_all decide)
  · have h := ((calculateDuration_spec "9.30 AM - 10 AM").2
        "9.30 AM ".data " 10 AM".data [] (by decide) (by decide)).2.2
        558 600 (by with_unfolding_all decide)
        (by with_unfolding_all decide) (by with_unfolding_all decide)
    exact h.trans (by with_unfolding_all decide)

end CalendarAgent
